import Mathlib

/-!
Verification of the time-range resolution and screenshot-scheduling core of
`ffmpeg-screenshot` (`src/main.py`), shallowly embedded in Lean 4.

Modelling conventions:
* Python floats (probed duration, chapter times) are modelled as `ℚ`.
* Python ints are modelled as `Int` / `Nat`.
* Python exceptions are modelled with `Except PyError` / an `Option PyError`
  error component.
* External effects (directory creation, one ffmpeg extraction call per
  scheduled timestamp) are modelled as a trace of `Effect` values.
-/

instance {ε α : Type} [DecidableEq ε] [DecidableEq α] : DecidableEq (Except ε α) := fun x y =>
  match x, y with
  | .ok a, .ok b =>
    if h : a = b then .isTrue (by rw [h]) else .isFalse (fun hc => h (Except.ok.inj hc))
  | .error a, .error b =>
    if h : a = b then .isTrue (by rw [h]) else .isFalse (fun hc => h (Except.error.inj hc))
  | .ok _, .error _ => .isFalse (fun hc => Except.noConfusion hc)
  | .error _, .ok _ => .isFalse (fun hc => Except.noConfusion hc)

/-- The Python exception kinds that the embedded code can raise. -/
inductive PyError where
  | valueError
  | indexError
  | keyError
  | typeError
  | zeroDivisionError
deriving DecidableEq, Repr

/-- A chapter as probed from the media file: `start_time`/`end_time` are the
float fields, `title` models the (possibly missing) `tags.title` entry. -/
structure Chapter where
  start_time : ℚ
  end_time : ℚ
  title : Option String
deriving DecidableEq, Repr

/-- The dict key (`"start_time"` or `"end_time"`) passed to `get_chapter_time`. -/
inductive ChapterKey where
  | start_time
  | end_time
deriving DecidableEq, Repr

/-- `chapter[key]` for the two keys actually used by the code. -/
def Chapter.field (c : Chapter) : ChapterKey → ℚ
  | .start_time => c.start_time
  | .end_time => c.end_time

/-! ### `parse_time` (src/main.py lines 31-36) -/

/-- ASCII whitespace stripped by Python `int(str)` / matched by `str.strip()`. -/
def isPyWs (c : Char) : Bool :=
  c = ' ' || c = '\t' || c = '\n' || c = '\r' || c = Char.ofNat 11 || c = Char.ofNat 12

/-- Strip leading and trailing Python whitespace from a character list. -/
def stripWs (cs : List Char) : List Char :=
  ((cs.dropWhile isPyWs).reverse.dropWhile isPyWs).reverse

/-- Checker for the digit/underscore body accepted by Python `int`:
digits with single underscores strictly between digits.  This scans the tail
after the first (digit) character. -/
def udTail : List Char → Bool
  | [] => true
  | c :: rest =>
    if c = '_' then
      match rest with
      | [] => false
      | c2 :: r => c2.isDigit && udTail r
    else c.isDigit && udTail rest

/-- A nonempty digit sequence with single underscores between digits
(the unsigned body accepted by Python `int(s)` after stripping). -/
def udigits : List Char → Bool
  | [] => false
  | c :: rest => c.isDigit && udTail rest

/-- Decimal value of a digit/underscore body (underscores skipped). -/
def udVal (cs : List Char) : Nat :=
  (cs.filter (· ≠ '_')).foldl (fun acc c => 10 * acc + (c.toNat - 48)) 0

/-- Python `int(s)` in base 10, restricted to ASCII input: strip whitespace,
optional single sign, then digits with single underscores between digits.
Any other shape raises `ValueError`. -/
def pyInt (cs : List Char) : Except PyError Int :=
  match stripWs cs with
  | [] => .error .valueError
  | c :: rest =>
    if c = '+' then
      if udigits rest then .ok (udVal rest) else .error .valueError
    else if c = '-' then
      if udigits rest then .ok (-(udVal rest : Int)) else .error .valueError
    else
      if udigits (c :: rest) then .ok (udVal (c :: rest)) else .error .valueError

/-- The core of the regex `^([0-9]{2}:){2}[0-9]{2}$`: exactly `DD:DD:DD`. -/
def clockCore : List Char → Bool
  | [a, b, c, d, e, f, g, h] =>
    a.isDigit && b.isDigit && c = ':' && d.isDigit && e.isDigit && f = ':' &&
      g.isDigit && h.isDigit
  | _ => false

/-- Python `re.match(r"^([0-9]{2}:){2}[0-9]{2}$", s)` truthiness: the anchored
pattern also matches when a single trailing newline follows (Python `$`
matches just before a final newline). -/
def clockMatch (cs : List Char) : Bool :=
  clockCore cs || (cs.getLast? = some '\n' && clockCore cs.dropLast)

/-- Value of a matched `DD:DD:DD` string: `h*3600 + m*60 + s`, where each
field is read from its two digit characters (this is what
`map(int, time_str.split(":"))` computes on a matched string). -/
def clockVal : List Char → Int
  | a :: b :: _ :: c :: d :: _ :: e :: f :: _ =>
    ((10 * (a.toNat - 48) + (b.toNat - 48)) * 3600
      + (10 * (c.toNat - 48) + (d.toNat - 48)) * 60
      + (10 * (e.toNat - 48) + (f.toNat - 48)) : Nat)
  | _ => 0

/-- `parse_time` (src/main.py lines 31-36): `DD:DD:DD` via the anchored regex,
otherwise Python `int(time_str)`; a failed `int` raises `ValueError`. -/
def parse_time (s : String) : Except PyError Int :=
  if clockMatch s.data then .ok (clockVal s.data) else pyInt s.data

/-! ### `get_chapter_time` (src/main.py lines 39-47) -/

/-- Python truthiness of an optional int argument (`None` and `0` are falsy). -/
def truthyOptInt : Option Int → Bool
  | some n => n != 0
  | none => false

/-- Python truthiness of an optional string argument (`None` and `""` falsy). -/
def truthyOptStr : Option String → Bool
  | some s => s != ""
  | none => false

/-- Python list indexing `l[i]`: non-negative indices from the front,
negative indices from the back, `IndexError` when out of bounds. -/
def pyIndex {α : Type} (l : List α) (i : Int) : Except PyError α :=
  if h : 0 ≤ i ∧ i < l.length then .ok (l.get ⟨i.toNat, by omega⟩)
  else if h2 : -(l.length : Int) ≤ i ∧ i < 0 then
    .ok (l.get ⟨(l.length + i).toNat, by omega⟩)
  else .error .indexError

/-- The `for chapter in chapters` scan of `get_chapter_time`: comparing
`chapter["tags"]["title"] == chapter_name` raises `KeyError` on a chapter
without a title; the first title match returns `float(chapter[key])`. -/
def findTitle : List Chapter → String → ChapterKey → Except PyError (Option ℚ)
  | [], _, _ => .ok none
  | c :: rest, name, key =>
    match c.title with
    | none => .error .keyError
    | some t => if t = name then .ok (some (c.field key)) else findTitle rest name key

/-- `get_chapter_time` (src/main.py lines 39-47). -/
def get_chapter_time (chapters : List Chapter) (chapter_num : Option Int)
    (chapter_name : Option String) (key : ChapterKey) : Except PyError (Option ℚ) :=
  if truthyOptInt chapter_num then
    match pyIndex chapters (chapter_num.getD 0 - 1) with
    | .ok c => .ok (some (c.field key))
    | .error e => .error e
  else if truthyOptStr chapter_name then
    findTitle chapters (chapter_name.getD "") key
  else .ok none

/-! ### Range resolution (src/main.py lines 71-80) -/

/-- The start-time computation (src/main.py lines 71-73):
`get_chapter_time(chapters, num, name) or parse_time(args.start_time)`.
A falsy lookup result (`None`, or a matched chapter time of `0.0`) falls
through to the parsed literal. -/
def resolveStart (chapters : List Chapter) (num : Option Int) (name : Option String)
    (lit : String) : Except PyError ℚ :=
  match get_chapter_time chapters num name .start_time with
  | .error e => .error e
  | .ok (some v) =>
    if v = 0 then (parse_time lit).map (fun n => (n : ℚ)) else .ok v
  | .ok none => (parse_time lit).map (fun n => (n : ℚ))

/-- The end-time computation (src/main.py lines 75-80); returns `none` when a
chapter selector was given but the title lookup found no match (Python binds
`end_time = None` there, which makes the later subtraction raise `TypeError`). -/
def resolveEnd (chapters : List Chapter) (num : Option Int) (name : Option String)
    (lit : Option String) (duration : ℚ) : Except PyError (Option ℚ) :=
  if truthyOptInt num || truthyOptStr name then
    get_chapter_time chapters num name .end_time
  else if truthyOptStr lit then
    (parse_time (lit.getD "")).map (fun n => some (n : ℚ))
  else .ok (some duration)

/-! ### The scheduling loop (src/main.py lines 83-105) -/

/-- Python `range(start, stop, step)`, as iterated by the scheduling loop
(`range(math.ceil(start_time), math.floor(end_time), args.interval)`).
For a positive step it yields `start, start+step, ...` while `< stop`; for a
negative step it yields `start, start+step, ...` while `> stop` (descending,
e.g. `range(50, 30, -20) = [50]`).  `range(..., 0)` raises `ValueError` in
Python; that case is unreachable in `runCore`, which raises
`ZeroDivisionError` at the `max_count` division before the loop is built,
and is modelled here as the empty range. -/
def pyRange (start stop step : Int) : List Int :=
  if h1 : 0 < step ∧ start < stop then start :: pyRange (start + step) stop step
  else if h2 : step < 0 ∧ stop < start then start :: pyRange (start + step) stop step
  else []
termination_by (if 0 < step then stop - start else start - stop).toNat
decreasing_by
  all_goals simp_wf
  · rw [if_pos h1.1, if_pos h1.1]
    omega
  · have hns : ¬ 0 < step := by omega
    rw [if_neg hns, if_neg hns]
    omega

/-- The timestamps the scheduling loop iterates over
(`range(math.ceil(start_time), math.floor(end_time), args.interval)`). -/
def scheduleTimestamps (s e : ℚ) (interval : Int) : List Int :=
  pyRange ⌈s⌉ ⌊e⌋ interval

/-- `max_count = math.ceil(time_range / args.interval)` (src/main.py line 84). -/
def totalCount (s e : ℚ) (interval : Int) : Int :=
  ⌈(e - s) / (interval : ℚ)⌉

/-- Decimal digit characters of a natural number, most significant first
(Python `str(count)` for a non-negative int). -/
def decDigits (n : Nat) : List Char :=
  if h : n < 10 then [Char.ofNat (48 + n)]
  else decDigits (n / 10) ++ [Char.ofNat (48 + n % 10)]
termination_by n
decreasing_by
  simp_wf
  omega

/-- Python `str` of an int (`str(max_count)`), signs included. -/
def intRepr (n : Int) : List Char :=
  if n < 0 then '-' :: decDigits n.natAbs else decDigits n.toNat

/-- Python `str.zfill(w)`: left-pad with `'0'` to width `w`, keeping a
leading sign in front of the padding. -/
def pyZfill (cs : List Char) (w : Nat) : List Char :=
  if w ≤ cs.length then cs
  else
    match cs with
    | c :: rest =>
      if c = '+' || c = '-' then c :: (List.replicate (w - cs.length) '0' ++ rest)
      else List.replicate (w - cs.length) '0' ++ (c :: rest)
    | [] => List.replicate w '0'

/-- The output filename
`f"{in_file.stem}_{str(count).zfill(len(str(max_count)))}.png"`
(src/main.py line 105). -/
def mkOutFile (stem : String) (count : Nat) (max_count : Int) : String :=
  stem ++ "_" ++ String.mk (pyZfill (decDigits count) (intRepr max_count).length) ++ ".png"

/-! ### The whole `generate_screenshots` pipeline after probing -/

/-- The CLI argument namespace, with the input path already split into stem
and parent directory (path handling is out of scope). -/
structure Args where
  in_file_stem : String
  in_file_parent : String
  print_chapters : Bool
  interval : Int
  outpath : Option String
  start_time : String
  start_chapter_number : Option Int
  start_chapter_name : Option String
  end_time : Option String
  end_chapter_number : Option Int
  end_chapter_name : Option String
  verbose : Bool
  simulate : Bool
deriving Repr

/-- `out_path = Path(args.outpath) if args.outpath else in_file.parent / "screenshots"`:
Python truthiness makes both `None` and the empty string fall back to the
default `<parent>/screenshots` directory. -/
def outPathOf (a : Args) : String :=
  match a.outpath with
  | some p => if p = "" then a.in_file_parent ++ "/screenshots" else p
  | none => a.in_file_parent ++ "/screenshots"

/-- An externally visible side effect of one run: creating the output
directory, or one ffmpeg extraction call producing one image file. -/
inductive Effect where
  | mkdir (path : String)
  | extract (filename : String) (timestamp : Int)
deriving DecidableEq, Repr

/-- Is the effect an extraction call? -/
def Effect.isExtract : Effect → Bool
  | .extract _ _ => true
  | _ => false

/-- `generate_screenshots` after the probe (src/main.py lines 62-121), as a
pure function from the arguments and the probed chapters/duration to the
trace of effects performed plus the exception, if any, that aborted the run
(`none` means normal completion).  `--print-chapters` exits before creating
the directory; otherwise the directory is created before time resolution. -/
def runCore (a : Args) (chapters : List Chapter) (duration : ℚ) :
    List Effect × Option PyError :=
  if a.print_chapters then ([], none)
  else
    let out := outPathOf a
    match resolveStart chapters a.start_chapter_number a.start_chapter_name a.start_time with
    | .error e => ([.mkdir out], some e)
    | .ok start =>
      match resolveEnd chapters a.end_chapter_number a.end_chapter_name a.end_time duration with
      | .error e => ([.mkdir out], some e)
      | .ok none => ([.mkdir out], some .typeError)
      | .ok (some endv) =>
        if a.interval = 0 then ([.mkdir out], some .zeroDivisionError)
        else
          let max_count := totalCount start endv a.interval
          let entries := List.enumFrom 1 (scheduleTimestamps start endv a.interval)
          ([.mkdir out] ++ entries.filterMap (fun p =>
            if a.simulate then none
            else some (.extract (mkOutFile a.in_file_stem p.1 max_count) p.2)), none)

/-! ### Basic lemmas about `pyRange` -/

theorem pyRange_pos (start stop step : Int) (h1 : 0 < step) (h2 : start < stop) :
    pyRange start stop step = start :: pyRange (start + step) stop step := by
  rw [pyRange]
  exact dif_pos ⟨h1, h2⟩

theorem pyRange_stop (start stop step : Int) (ha : ¬(0 < step ∧ start < stop))
    (hd : ¬(step < 0 ∧ stop < start)) : pyRange start stop step = [] := by
  rw [pyRange]
  rw [dif_neg ha, dif_neg hd]

theorem pyRange_desc (start stop step : Int) (h1 : step < 0) (h2 : stop < start) :
    pyRange start stop step = start :: pyRange (start + step) stop step := by
  rw [pyRange]
  rw [dif_neg (by omega), dif_pos ⟨h1, h2⟩]

/-- Python iterates a negative-step range downwards: `range(50, 30, -20) = [50]`,
so the loop body does run for a negative interval even when `end < start`. -/
theorem pyRange_neg_step_concrete : pyRange 50 30 (-20) = [50] := by
  rw [pyRange_desc 50 30 (-20) (by norm_num) (by norm_num)]
  rw [pyRange_stop (50 + -20) 30 (-20) (by omega) (by omega)]

/-- The loop over `range(start, stop, step)` with positive step visits exactly
the integers `start + step * k` (for natural `k`) that are `< stop`. -/
theorem mem_pyRange :
    ∀ start stop step : Int, 0 < step → ∀ t : Int,
      (t ∈ pyRange start stop step ↔ ∃ k : ℕ, t = start + step * k ∧ t < stop) := by
  intro start stop step
  induction start, stop, step using pyRange.induct with
  | case1 start stop step h ih =>
    intro hs t
    rw [pyRange_pos start stop step h.1 h.2]
    constructor
    · intro hm
      rcases List.mem_cons.mp hm with rfl | hm
      · exact ⟨0, by simp, h.2⟩
      · obtain ⟨k, hk, hlt⟩ := (ih hs t).mp hm
        refine ⟨k + 1, ?_, hlt⟩
        rw [hk]
        push_cast
        ring
    · rintro ⟨k, rfl, hlt⟩
      cases k with
      | zero => simp
      | succ j =>
        apply List.mem_cons_of_mem
        refine (ih hs _).mpr ⟨j, ?_, hlt⟩
        push_cast
        ring
  | case2 start stop step hn hdc ih =>
    intro hs
    exact absurd hs (by omega)
  | case3 start stop step hn hdc =>
    intro hs t
    rw [pyRange_stop start stop step hn hdc]
    simp only [List.not_mem_nil, false_iff, not_exists]
    rintro k ⟨rfl, hlt⟩
    have hk0 : (0 : Int) ≤ step * k := mul_nonneg hs.le (by positivity)
    have hstop : stop ≤ start := not_lt.mp (fun hx => hn ⟨hs, hx⟩)
    linarith

/-- The emitted timestamps are strictly increasing. -/
theorem pyRange_pairwise :
    ∀ start stop step : Int, 0 < step → (pyRange start stop step).Pairwise (· < ·) := by
  intro start stop step
  induction start, stop, step using pyRange.induct with
  | case1 start stop step h ih =>
    intro hs
    rw [pyRange_pos start stop step h.1 h.2]
    refine List.pairwise_cons.mpr ⟨?_, ih hs⟩
    intro t ht
    obtain ⟨k, rfl, -⟩ := (mem_pyRange _ _ _ hs t).mp ht
    have hk0 : (0 : Int) ≤ step * k := mul_nonneg hs.le (by positivity)
    linarith
  | case2 start stop step hn hdc ih =>
    intro hs
    exact absurd hs (by omega)
  | case3 start stop step hn hdc =>
    intro hs
    rw [pyRange_stop start stop step hn hdc]
    exact List.Pairwise.nil

/-- The entry at zero-based position `k` (one-based index `k+1`) is
`start + step * k`. -/
theorem pyRange_get? :
    ∀ start stop step : Int, 0 < step → ∀ k : ℕ, k < (pyRange start stop step).length →
      (pyRange start stop step).get? k = some (start + step * k) := by
  intro start stop step
  induction start, stop, step using pyRange.induct with
  | case1 start stop step h ih =>
    intro hs k hk
    rw [pyRange_pos start stop step h.1 h.2] at hk ⊢
    cases k with
    | zero => simp
    | succ j =>
      rw [List.get?_cons_succ]
      have hj : j < (pyRange (start + step) stop step).length := by
        simpa using Nat.lt_of_succ_lt_succ hk
      rw [ih hs j hj]
      congr 1
      push_cast
      ring
  | case2 start stop step hn hdc ih =>
    intro hs
    exact absurd hs (by omega)
  | case3 start stop step hn hdc =>
    intro hs k hk
    rw [pyRange_stop start stop step hn hdc] at hk
    simp at hk

/-- The number of loop iterations is at most `ceil((stop - start)/step)`
(computed over ℚ), provided the range is non-degenerate. -/
theorem pyRange_length_le :
    ∀ start stop step : Int, 0 < step → start < stop →
      ((pyRange start stop step).length : Int) ≤
        ⌈(((stop : ℚ) - (start : ℚ))) / (step : ℚ)⌉ := by
  intro start stop step
  induction start, stop, step using pyRange.induct with
  | case1 start stop step h ih =>
    intro hs hab
    rw [pyRange_pos start stop step h.1 h.2]
    have hq : (0 : ℚ) < (step : ℚ) := by exact_mod_cast hs
    by_cases h2 : start + step < stop
    · have hrec := ih hs h2
      have heq : ((stop : ℚ) - ((start : Int) + (step : Int) : Int)) / (step : ℚ)
          = ((stop : ℚ) - (start : ℚ)) / (step : ℚ) - ((1 : Int) : ℚ) := by
        push_cast
        field_simp
        ring
      rw [heq, Int.ceil_sub_int] at hrec
      simp only [List.length_cons]
      push_cast
      omega
    · rw [pyRange_stop (start + step) stop step (fun hx => h2 hx.2) (by omega)]
      simp only [List.length_nil, List.length_cons]
      have hpos : (0 : ℚ) < ((stop : ℚ) - (start : ℚ)) / (step : ℚ) := by
        apply div_pos _ hq
        have : ((start : ℚ)) < (stop : ℚ) := by exact_mod_cast hab
        linarith
      have := Int.ceil_pos.mpr hpos
      omega
  | case2 start stop step hn hdc ih =>
    intro hs
    exact absurd hs (by omega)
  | case3 start stop step hn hdc =>
    intro hs hab
    exact absurd ⟨hs, hab⟩ hn

/-! ### Basic lemmas about `decDigits` -/

theorem decDigits_lt (n : Nat) (h : n < 10) : decDigits n = [Char.ofNat (48 + n)] := by
  rw [decDigits]
  exact dif_pos h

theorem decDigits_ge (n : Nat) (h : ¬ n < 10) :
    decDigits n = decDigits (n / 10) ++ [Char.ofNat (48 + n % 10)] := by
  rw [decDigits]
  exact dif_neg h

theorem decDigits_ne_nil : ∀ n : Nat, decDigits n ≠ [] := by
  intro n
  induction n using decDigits.induct with
  | case1 x hx => rw [decDigits_lt x hx]; simp
  | case2 x hx ih => rw [decDigits_ge x hx]; simp

/-- `str(n)` of a non-negative int has `log10 n + 1` characters. -/
theorem decDigits_length : ∀ n : Nat, (decDigits n).length = Nat.log 10 n + 1 := by
  intro n
  induction n using decDigits.induct with
  | case1 x hx =>
    rw [decDigits_lt x hx]
    have : Nat.log 10 x = 0 := Nat.log_eq_zero_iff.mpr (Or.inl hx)
    simp [this]
  | case2 x hx ih =>
    rw [decDigits_ge x hx]
    have h10 : 10 ≤ x := le_of_not_lt hx
    have hdiv := Nat.log_div_base 10 x
    have hpos : 0 < Nat.log 10 x := Nat.log_pos (by norm_num) h10
    simp only [List.length_append, List.length_cons, List.length_nil, ih]
    omega

theorem decDigits_length_mono (m n : Nat) (h : m ≤ n) :
    (decDigits m).length ≤ (decDigits n).length := by
  rw [decDigits_length, decDigits_length]
  have := Nat.log_mono_right (b := 10) h
  omega

/-- The first character of `str(n)` is never a sign character. -/
theorem decDigits_head_no_sign :
    ∀ (n : Nat) (c : Char) (rest : List Char), decDigits n = c :: rest →
      (c = '+' || c = '-') = false := by
  intro n
  induction n using decDigits.induct with
  | case1 x hx =>
    intro c rest hc
    rw [decDigits_lt x hx] at hc
    obtain ⟨rfl, -⟩ := List.cons.inj hc
    interval_cases x <;> decide
  | case2 x hx ih =>
    intro c rest hc
    obtain ⟨c2, rest2, hcr⟩ := List.exists_cons_of_ne_nil (decDigits_ne_nil (x / 10))
    rw [decDigits_ge x hx, hcr] at hc
    obtain ⟨rfl, -⟩ := List.cons.inj hc
    exact ih c2 rest2 hcr

/-! ### Lemmas about `parse_time` -/

theorem dropWhile_no_ws (l : List Char) (h : ∀ c ∈ l, isPyWs c = false) :
    l.dropWhile isPyWs = l := by
  cases l with
  | nil => rfl
  | cons c rest =>
    rw [List.dropWhile_cons]
    simp [h c (by simp)]

theorem stripWs_no_ws (l : List Char) (h : ∀ c ∈ l, isPyWs c = false) :
    stripWs l = l := by
  unfold stripWs
  rw [dropWhile_no_ws l h,
    dropWhile_no_ws l.reverse (fun c hc => h c (List.mem_reverse.mp hc)),
    List.reverse_reverse]

theorem isPyWs_of_digit (c : Char) (h : c.isDigit = true) : isPyWs c = false := by
  by_contra hne
  rw [Bool.not_eq_false] at hne
  simp only [isPyWs, Bool.or_eq_true, decide_eq_true_eq] at hne
  rcases hne with ((((rfl | rfl) | rfl) | rfl) | rfl) | rfl <;> exact absurd h (by decide)

theorem udTail_digits : ∀ l : List Char, (∀ c ∈ l, c.isDigit = true) → udTail l = true := by
  intro l
  induction l with
  | nil => intro; rfl
  | cons c rest ih =>
    intro h
    have hc := h c (by simp)
    have hcu : ¬ c = '_' := by
      intro hx
      rw [hx] at hc
      exact absurd hc (by decide)
    rw [udTail.eq_def]
    dsimp only
    rw [if_neg hcu, hc, ih (fun x hx => h x (by simp [hx]))]
    rfl

theorem clockCore_digits (l : List Char) (hd : ∀ c ∈ l, c.isDigit = true) :
    clockCore l = false := by
  cases hcc : clockCore l with
  | false => rfl
  | true =>
    exfalso
    unfold clockCore at hcc
    split at hcc
    · rename_i a b c3 d e f g h8
      simp only [Bool.and_eq_true, decide_eq_true_eq] at hcc
      obtain ⟨⟨⟨⟨⟨⟨⟨ha, hb⟩, hc3⟩, hd4⟩, he5⟩, hf6⟩, hg7⟩, hh8⟩ := hcc
      have hmem := hd c3 (by simp)
      rw [hc3] at hmem
      exact absurd hmem (by decide)
    · exact Bool.noConfusion hcc

theorem clockMatch_digits (l : List Char) (hd : ∀ c ∈ l, c.isDigit = true) :
    clockMatch l = false := by
  unfold clockMatch
  rw [clockCore_digits l hd]
  simp only [Bool.false_or]
  cases hl : l.getLast? with
  | none => simp
  | some c =>
    rcases eq_or_ne c '\n' with rfl | hcn
    · exfalso
      have hc : '\n' ∈ l.getLast? := by rw [hl]; rfl
      obtain ⟨hne, heq⟩ := List.mem_getLast?_eq_getLast hc
      have hmem := hd '\n' (heq ▸ List.getLast_mem hne)
      exact absurd hmem (by decide)
    · simp [hcn]

/-- Claim C2: `parse_time` returns `h*3600 + m*60 + s` on strings matching the
two-digit `DD:DD:DD` regex, returns the base-10 value on plain integer
literals (digit strings), and fails with `ValueError` on any input that
neither matches the regex nor is accepted by Python `int`; concretely
`parse_time "01:02:03" = 3723`, `parse_time "90" = 90`, and
`parse_time "1:2:3"` and `parse_time "abc"` both fail. -/
theorem parse_time_spec :
    (∀ a b c d e f : Char, a.isDigit = true → b.isDigit = true → c.isDigit = true →
      d.isDigit = true → e.isDigit = true → f.isDigit = true →
      parse_time (String.mk [a, b, ':', c, d, ':', e, f]) =
        .ok (((10 * (a.toNat - 48) + (b.toNat - 48)) * 3600
          + (10 * (c.toNat - 48) + (d.toNat - 48)) * 60
          + (10 * (e.toNat - 48) + (f.toNat - 48)) : Nat)))
    ∧ (∀ s : String, s.data ≠ [] → (∀ c ∈ s.data, c.isDigit = true) →
        parse_time s = .ok (udVal s.data))
    ∧ (∀ s : String, clockMatch s.data = false → pyInt s.data = .error .valueError →
        parse_time s = .error .valueError)
    ∧ parse_time "01:02:03" = .ok 3723
    ∧ parse_time "90" = .ok 90
    ∧ parse_time "1:2:3" = .error .valueError
    ∧ parse_time "abc" = .error .valueError := by
  refine ⟨?_, ?_, ?_, rfl, rfl, rfl, rfl⟩
  · intro a b c d e f ha hb hc hd he hf
    unfold parse_time
    have hm : clockMatch (String.mk [a, b, ':', c, d, ':', e, f]).data = true := by
      show clockMatch [a, b, ':', c, d, ':', e, f] = true
      unfold clockMatch clockCore
      simp [ha, hb, hc, hd, he, hf]
    rw [hm]
    rfl
  · intro s hne hd
    unfold parse_time
    rw [clockMatch_digits s.data hd]
    rw [if_neg (by simp)]
    unfold pyInt
    rw [stripWs_no_ws s.data (fun c hc => isPyWs_of_digit c (hd c hc))]
    cases hsd : s.data with
    | nil => exact absurd hsd hne
    | cons c rest =>
      have hc : c.isDigit = true := hd c (by rw [hsd]; simp)
      have hcp : ¬ c = '+' := by
        intro hx
        rw [hx] at hc
        exact absurd hc (by decide)
      have hcm : ¬ c = '-' := by
        intro hx
        rw [hx] at hc
        exact absurd hc (by decide)
      have hud : udigits (c :: rest) = true := by
        unfold udigits
        dsimp only
        rw [hc, udTail_digits rest (fun x hx => hd x (by rw [hsd]; simp [hx]))]
        rfl
      dsimp only
      rw [if_neg hcp, if_neg hcm, hud]
      rw [if_pos rfl]
  · intro s h1 h2
    unfold parse_time
    rw [h1]
    exact (if_neg (by simp)).trans h2

/-- Witness for C2: the universal clauses evaluated at `"01:02:03"` (as an
explicit character list) and at the digit string `"42"`. -/
theorem parse_time_spec_witness :
    parse_time (String.mk ['0', '1', ':', '0', '2', ':', '0', '3']) = .ok 3723
    ∧ parse_time "42" = .ok 42 := by
  constructor
  · have h := parse_time_spec.1 '0' '1' '0' '2' '0' '3'
      (by decide) (by decide) (by decide) (by decide) (by decide) (by decide)
    rw [h]
    decide
  · have h := parse_time_spec.2.1 "42" (by decide) (by decide)
    rw [h]
    decide

/-- Claim C9: for every chapter list and every ordinal strictly greater than
the number of chapters, `get_chapter_time` raises `IndexError` (it does not
return absent and does not fall through to the literal time). -/
theorem ordinal_out_of_bounds_index_error (chapters : List Chapter) (n : Int)
    (name : Option String) (key : ChapterKey) (h : (chapters.length : Int) < n) :
    get_chapter_time chapters (some n) name key = .error .indexError := by
  have hlen : (0 : Int) ≤ chapters.length := by positivity
  have hn : n ≠ 0 := by omega
  unfold get_chapter_time
  have ht : truthyOptInt (some n) = true := by simp [truthyOptInt, hn]
  rw [ht, if_pos rfl]
  have hx : pyIndex chapters (Option.getD (some n) 0 - 1)
      = (.error .indexError : Except PyError Chapter) := by
    unfold pyIndex
    simp only [Option.getD_some]
    rw [dif_neg (by omega), dif_neg (by omega)]
  rw [hx]

/-- Witness for C9: ordinal 1 on an empty chapter list raises `IndexError`. -/
theorem ordinal_out_of_bounds_index_error_witness :
    get_chapter_time [] (some 1) none .start_time = .error .indexError :=
  ordinal_out_of_bounds_index_error [] 1 none .start_time (by simp)

/-! ### Lemmas about `get_chapter_time` by-title lookup -/

/-- On a chapter list in which every chapter carries a title, the linear scan
returns the field of the first chapter whose title matches exactly. -/
theorem findTitle_all_titled (chapters : List Chapter) (t : String) (key : ChapterKey)
    (h : ∀ c ∈ chapters, (c.title).isSome = true) :
    findTitle chapters t key =
      .ok ((chapters.find? (fun c => c.title == some t)).map (fun c => c.field key)) := by
  induction chapters with
  | nil => rfl
  | cons c rest ih =>
    obtain ⟨tc, htc⟩ := Option.isSome_iff_exists.mp (h c (by simp))
    rw [List.find?_cons]
    unfold findTitle
    rw [htc]
    by_cases hx : tc = t
    · subst hx
      simp
    · have hbeq : (some tc == some t) = false := by simp [hx]
      rw [hbeq]
      dsimp only
      rw [if_neg hx, ih (fun x hxm => h x (List.mem_cons_of_mem c hxm))]

/-- Counterexample to C7 as stated: looking up title `"Main"` in a chapter
list whose first chapter has no title raises `KeyError` instead of returning
the first matching chapter's field (which would be `.ok (some 200)`). -/
theorem title_scan_keyerror_counterexample :
    get_chapter_time [⟨0, 100, none⟩, ⟨100, 200, some "Main"⟩] none (some "Main") .end_time
        = .error .keyError
    ∧ ¬ (get_chapter_time [⟨0, 100, none⟩, ⟨100, 200, some "Main"⟩] none (some "Main") .end_time
        = .ok (some 200)) := by
  exact ⟨rfl, by decide⟩

/-- Claim C7 (amended): an ordinal of 0 behaves exactly like no ordinal; with
a nonempty title given, *provided every scanned chapter carries a title*, the
lookup returns the field of the first chapter whose title equals the given
title exactly (case-sensitively) and absent when none matches (an untitled
chapter encountered before a match instead raises `KeyError`, see the
counterexample); with neither ordinal nor title (or an empty, falsy title) it
returns absent. -/
theorem get_chapter_time_amended (chapters : List Chapter) (key : ChapterKey) :
    (∀ nm : Option String, get_chapter_time chapters (some 0) nm key
        = get_chapter_time chapters none nm key)
    ∧ (∀ t : String, t ≠ "" → (∀ c ∈ chapters, (c.title).isSome = true) →
        get_chapter_time chapters none (some t) key =
          .ok ((chapters.find? (fun c => c.title == some t)).map (fun c => c.field key)))
    ∧ get_chapter_time chapters none none key = .ok none
    ∧ get_chapter_time chapters none (some "") key = .ok none := by
  refine ⟨fun nm => rfl, ?_, rfl, rfl⟩
  intro t ht hall
  unfold get_chapter_time
  have h1 : truthyOptInt none = false := rfl
  have h2 : truthyOptStr (some t) = true := by simp [truthyOptStr, ht]
  rw [h1, if_neg (by simp), h2, if_pos rfl]
  simp only [Option.getD_some]
  exact findTitle_all_titled chapters t key hall

/-- Witness for the amended C7: on a fully titled two-chapter list, the title
`"Main"` resolves to the second chapter's end time, a missing title resolves
to absent, and ordinal 0 acts as unset. -/
theorem get_chapter_time_amended_witness :
    get_chapter_time [⟨0, 100, some "Intro"⟩, ⟨100, 200, some "Main"⟩] none (some "Main")
        .end_time = .ok (some 200)
    ∧ get_chapter_time [⟨0, 100, some "Intro"⟩, ⟨100, 200, some "Main"⟩] none (some "Zzz")
        .start_time = .ok none
    ∧ get_chapter_time [⟨0, 100, some "Intro"⟩, ⟨100, 200, some "Main"⟩] (some 0) none
        .start_time = .ok none := by
  refine ⟨?_, ?_, ?_⟩
  · have h := (get_chapter_time_amended
      [⟨0, 100, some "Intro"⟩, ⟨100, 200, some "Main"⟩] .end_time).2.1 "Main"
      (by decide) (by intro c hc; rcases List.mem_cons.mp hc with rfl | hc2; · rfl
                      rcases List.mem_cons.mp hc2 with rfl | hc3; · rfl
                      exact absurd hc3 (List.not_mem_nil c))
    rw [h]
    rfl
  · have h := (get_chapter_time_amended
      [⟨0, 100, some "Intro"⟩, ⟨100, 200, some "Main"⟩] .start_time).2.1 "Zzz"
      (by decide) (by intro c hc; rcases List.mem_cons.mp hc with rfl | hc2; · rfl
                      rcases List.mem_cons.mp hc2 with rfl | hc3; · rfl
                      exact absurd hc3 (List.not_mem_nil c))
    rw [h]
    rfl
  · exact (get_chapter_time_amended
      [⟨0, 100, some "Intro"⟩, ⟨100, 200, some "Main"⟩] .start_time).1 none

/-- Counterexample to C5 as stated: with a single chapter starting at time 0,
the ordinal-1 lookup finds a match (value `0.0`), but because `0.0` is falsy
in Python, `get_chapter_time(...) or parse_time(...)` falls through to the
literal `"50"`, so the resolved start is 50, not the chapter-derived 0. -/
theorem chapter_zero_start_counterexample :
    get_chapter_time [⟨0, 100, some "Intro"⟩] (some 1) none .start_time = .ok (some 0)
    ∧ resolveStart [⟨0, 100, some "Intro"⟩] (some 1) none "50" = .ok 50
    ∧ (50 : ℚ) ≠ 0 := by
  refine ⟨rfl, ?_, by norm_num⟩
  have h : resolveStart [⟨0, 100, some "Intro"⟩] (some 1) none "50" = .ok ((50 : Int) : ℚ) := rfl
  rw [h]
  norm_num

/-- Claim C5 (amended): whenever the chapter lookup for the start finds a
match with a *nonzero* time, the resolved start is the chapter-derived value,
whatever the literal start text is; when the matched chapter time is 0 (falsy
in Python), the code instead parses the literal start text — which under the
CLI default literal `"0"` again yields the chapter value 0. -/
theorem chapter_start_precedence_amended (chapters : List Chapter) (num : Option Int)
    (name : Option String) (lit : String) (v : ℚ)
    (hmatch : get_chapter_time chapters num name .start_time = .ok (some v)) :
    (v ≠ 0 → resolveStart chapters num name lit = .ok v)
    ∧ (v = 0 → resolveStart chapters num name lit = (parse_time lit).map (fun n => (n : ℚ)))
    ∧ (v = 0 → resolveStart chapters num name "0" = .ok v) := by
  unfold resolveStart
  rw [hmatch]
  dsimp only
  refine ⟨fun hv => by rw [if_neg hv], fun hv => by rw [if_pos hv], fun hv => ?_⟩
  subst hv
  rw [if_pos rfl]
  rfl

/-- Witness for the amended C5: a nonzero chapter start (7) beats the literal
`"50"`, and a zero chapter start with the default literal `"0"` resolves to 0. -/
theorem chapter_start_precedence_amended_witness :
    resolveStart [⟨7, 100, some "Intro"⟩] (some 1) none "50" = .ok 7
    ∧ resolveStart [⟨0, 100, some "Intro"⟩] (some 1) none "0" = .ok 0 := by
  constructor
  · exact (chapter_start_precedence_amended [⟨7, 100, some "Intro"⟩] (some 1) none "50" 7
      rfl).1 (by norm_num)
  · exact (chapter_start_precedence_amended [⟨0, 100, some "Intro"⟩] (some 1) none "0" 0
      rfl).2.2 rfl

/-- Claim C3: for a resolved range with `end > start` and a positive interval,
the scheduling loop emits exactly the integers `ceil(start) + k*interval`
that are strictly below `floor(end)`, in strictly increasing order, the entry
at zero-based position `k` (one-based index `k+1`) being `ceil(start) +
k*interval`; concretely `start=0, end=61, interval=20` emits `[0,20,40,60]`. -/
theorem scheduler_emits_progression (s e : ℚ) (i : Int) (hse : s < e) (hi : 0 < i) :
    (∀ t : Int, t ∈ scheduleTimestamps s e i ↔ ∃ k : ℕ, t = ⌈s⌉ + i * k ∧ t < ⌊e⌋)
    ∧ (scheduleTimestamps s e i).Pairwise (· < ·)
    ∧ (∀ k : ℕ, k < (scheduleTimestamps s e i).length →
        (scheduleTimestamps s e i).get? k = some (⌈s⌉ + i * k))
    ∧ scheduleTimestamps 0 61 20 = [0, 20, 40, 60] := by
  refine ⟨fun t => mem_pyRange ⌈s⌉ ⌊e⌋ i hi t, pyRange_pairwise ⌈s⌉ ⌊e⌋ i hi,
    fun k hk => pyRange_get? ⌈s⌉ ⌊e⌋ i hi k hk, ?_⟩
  unfold scheduleTimestamps
  rw [Int.ceil_zero, show ⌊(61 : ℚ)⌋ = 61 by norm_num]
  rw [pyRange_pos, pyRange_pos, pyRange_pos, pyRange_pos, pyRange_stop] <;> norm_num

/-- Witness for C3: the concrete schedule for `start=0, end=61, interval=20`. -/
theorem scheduler_emits_progression_witness :
    scheduleTimestamps 0 61 20 = [0, 20, 40, 60] :=
  (scheduler_emits_progression 0 61 20 (by norm_num) (by norm_num)).2.2.2

/-- Claim C4: the number of timestamps the loop actually emits never exceeds
the advertised `total_count = ceil((end - start) / interval)`. -/
theorem emitted_count_le_total_count (s e : ℚ) (i : Int) (hse : s < e) (hi : 0 < i) :
    ((scheduleTimestamps s e i).length : Int) ≤ totalCount s e i := by
  unfold scheduleTimestamps totalCount
  have hiq : (0 : ℚ) < (i : ℚ) := by exact_mod_cast hi
  by_cases h : (⌈s⌉ : Int) < ⌊e⌋
  · refine (pyRange_length_le ⌈s⌉ ⌊e⌋ i hi h).trans (Int.ceil_mono ?_)
    have h1 : ((⌊e⌋ : Int) : ℚ) ≤ e := Int.floor_le e
    have h2 : s ≤ ((⌈s⌉ : Int) : ℚ) := Int.le_ceil s
    have hnum : ((⌊e⌋ : Int) : ℚ) - ((⌈s⌉ : Int) : ℚ) ≤ e - s := by linarith
    exact div_le_div_of_nonneg_right hnum hiq.le |>.trans_eq rfl
  · rw [pyRange_stop _ _ _ (fun hc => h hc.2) (by omega)]
    simp only [List.length_nil, Nat.cast_zero]
    exact Int.ceil_nonneg (div_nonneg (by linarith) hiq.le)

/-- Witness for C4: the emitted count for `start=0, end=61, interval=20` is
within the advertised total. -/
theorem emitted_count_le_total_count_witness :
    ((scheduleTimestamps 0 61 20).length : Int) ≤ totalCount 0 61 20 :=
  emitted_count_le_total_count 0 61 20 (by norm_num) (by norm_num)

/-- Counterexample to C6 as stated: for `start = 1/2`, `end = 1`,
`interval = 5`, the range is non-empty and the interval exceeds its width,
yet the schedule is empty — not a single entry at `ceil(start) = 1` — because
`range(ceil(1/2), floor(1), 5) = range(1, 1, 5)` is empty. -/
theorem single_entry_claim_counterexample :
    ((1 : ℚ) / 2 < 1) ∧ ((1 : ℚ) - 1 / 2 < ((5 : Int) : ℚ))
    ∧ scheduleTimestamps (1 / 2) 1 5 = []
    ∧ (scheduleTimestamps (1 / 2 : ℚ) 1 5).length ≠ 1 := by
  have hc : ⌈(1 : ℚ) / 2⌉ = 1 := by
    rw [Int.ceil_eq_iff]
    constructor <;> norm_num
  have hf : ⌊(1 : ℚ)⌋ = 1 := by norm_num
  have hemp : scheduleTimestamps (1 / 2 : ℚ) 1 5 = [] := by
    unfold scheduleTimestamps
    rw [hc, hf]
    exact pyRange_stop 1 1 5 (by omega) (by omega)
  exact ⟨by norm_num, by push_cast; norm_num, hemp, by rw [hemp]; simp⟩

/-- Claim C6 (amended): with `end > start` and `interval > end - start`, the
schedule has at most one entry: exactly one entry, at `ceil(start)`, when
`ceil(start) < floor(end)`, and no entry at all otherwise (which happens when
the open range contains no suitable integer, e.g. `start=1/2, end=1`). -/
theorem large_interval_at_most_one (s e : ℚ) (i : Int) (hse : s < e)
    (hbig : e - s < (i : ℚ)) :
    scheduleTimestamps s e i = (if (⌈s⌉ : Int) < ⌊e⌋ then [⌈s⌉] else []) := by
  have hi0 : 0 < i := by
    have h0 : (0 : ℚ) < (i : ℚ) := lt_of_le_of_lt (by linarith) hbig
    exact_mod_cast h0
  unfold scheduleTimestamps
  by_cases h : (⌈s⌉ : Int) < ⌊e⌋
  · have hstop : pyRange (⌈s⌉ + i) ⌊e⌋ i = [] := by
      apply pyRange_stop
      · rintro ⟨-, habs⟩
        have h1 : ((⌊e⌋ : Int) : ℚ) ≤ e := Int.floor_le e
        have h2 : s ≤ ((⌈s⌉ : Int) : ℚ) := Int.le_ceil s
        have hdi : ⌊e⌋ - ⌈s⌉ < i := by
          have hd : ((⌊e⌋ - ⌈s⌉ : Int) : ℚ) < (i : ℚ) := by push_cast; linarith
          exact_mod_cast hd
        omega
      · omega
    rw [if_pos h, pyRange_pos _ _ _ hi0 h, hstop]
  · rw [if_neg h]
    exact pyRange_stop _ _ _ (fun hc => h hc.2) (by omega)

/-- Witness for the amended C6: `start=0, end=1, interval=20` yields exactly
one entry, at 0. -/
theorem large_interval_at_most_one_witness : scheduleTimestamps 0 1 20 = [0] := by
  rw [large_interval_at_most_one 0 1 20 (by norm_num) (by push_cast; norm_num), Int.ceil_zero]
  norm_num

theorem filterMap_const_none {α β : Type} (l : List α) :
    l.filterMap (fun _ => (none : Option β)) = [] := by
  induction l with
  | nil => rfl
  | cons x xs ih => simp [List.filterMap_cons, ih]

/-- Counterexample to C1 as stated: with `--start-time 50 --end-time 30` the
run does *not* fail — there is no `InvalidRangeError` anywhere in the code —
it creates the output directory, schedules nothing (the underlying
`range(50, 30, 20)` is empty) and completes normally (no exception). -/
theorem range_50_30_completes_normally :
    runCore ⟨"video", ".", false, 20, some "shots", "50", none, none, some "30",
      none, none, false, false⟩ [] 100 = ([.mkdir "shots"], none) := by
  have hs : resolveStart [] none none "50" = .ok ((50 : Int) : ℚ) := rfl
  have he : resolveEnd [] none none (some "30") 100 = .ok (some ((30 : Int) : ℚ)) := rfl
  have hemp : pyRange 50 30 20 = [] := pyRange_stop 50 30 20 (by omega) (by omega)
  simp [runCore, outPathOf, hs, he, scheduleTimestamps, Int.ceil_intCast, Int.floor_intCast,
    hemp, List.enumFrom]

/-- Claim C1 (amended): the code performs no `end > start` validation at all
and has no `InvalidRangeError`.  Whenever range resolution succeeds with
`end_seconds <= start_seconds` and the interval is positive (the claim's
scenario; the CLI default is 20), the scheduling loop iterates over an empty
range, so the run performs only the directory creation and completes
normally (no error), instead of failing.  (For a negative interval Python's
`range` iterates downwards — see `pyRange_neg_step_concrete` — so nothing is
claimed there.) -/
theorem no_range_validation (a : Args) (chapters : List Chapter) (duration : ℚ) (s e : ℚ)
    (hpc : a.print_chapters = false)
    (hs : resolveStart chapters a.start_chapter_number a.start_chapter_name a.start_time
      = .ok s)
    (he : resolveEnd chapters a.end_chapter_number a.end_chapter_name a.end_time duration
      = .ok (some e))
    (hi : 0 < a.interval)
    (hle : e ≤ s) :
    runCore a chapters duration = ([.mkdir (outPathOf a)], none) := by
  have hemp : scheduleTimestamps s e a.interval = [] := by
    unfold scheduleTimestamps
    apply pyRange_stop
    · rintro ⟨hi0, hlt⟩
      have h1 : ((⌊e⌋ : Int) : ℚ) ≤ e := Int.floor_le e
      have h2 : s ≤ ((⌈s⌉ : Int) : ℚ) := Int.le_ceil s
      have hfc : ((⌊e⌋ : Int) : ℚ) ≤ ((⌈s⌉ : Int) : ℚ) := by linarith
      have hle2 : (⌊e⌋ : Int) ≤ ⌈s⌉ := by exact_mod_cast hfc
      omega
    · omega
  unfold runCore
  rw [hpc, if_neg (by simp), hs, he]
  dsimp only
  rw [if_neg (by omega), hemp]
  simp [List.enumFrom]

/-- Witness for the amended C1: a concrete run with start 40 and end 12
completes normally with an empty schedule. -/
theorem no_range_validation_witness :
    runCore ⟨"clip", "d", false, 3, some "out", "40", none, none, some "12",
      none, none, true, false⟩ [] 500 = ([.mkdir "out"], none) :=
  no_range_validation _ [] 500 ((40 : Int) : ℚ) ((12 : Int) : ℚ) rfl rfl rfl
    (by norm_num) (by norm_num)

/-- Claim C10: in simulate mode (and not printing chapters), the run's effect
trace is exactly the creation of the output directory: the directory is
created even though no extraction call is issued and no image file is
produced for any scheduled timestamp. -/
theorem simulate_creates_directory_only (a : Args) (chapters : List Chapter) (duration : ℚ)
    (hsim : a.simulate = true) (hpc : a.print_chapters = false) :
    (runCore a chapters duration).1 = [.mkdir (outPathOf a)]
    ∧ ∀ eff ∈ (runCore a chapters duration).1, eff.isExtract = false := by
  have htrace : (runCore a chapters duration).1 = [.mkdir (outPathOf a)] := by
    unfold runCore
    rw [hpc, if_neg (by simp)]
    cases hst : resolveStart chapters a.start_chapter_number a.start_chapter_name
        a.start_time with
    | error e1 => rfl
    | ok start =>
      cases hen : resolveEnd chapters a.end_chapter_number a.end_chapter_name
          a.end_time duration with
      | error e2 => rfl
      | ok oe =>
        cases oe with
        | none => rfl
        | some endv =>
          dsimp only
          by_cases hi : a.interval = 0
          · rw [if_pos hi]
          · rw [if_neg hi, hsim]
            simp [filterMap_const_none]
  refine ⟨htrace, ?_⟩
  rw [htrace]
  intro eff heff
  rw [List.mem_singleton.mp heff]
  rfl

/-- Witness for C10: a concrete simulate-mode run creates only the directory. -/
theorem simulate_creates_directory_only_witness :
    (runCore ⟨"clip", "d", false, 20, some "shotdir", "0", none, none, none,
      none, none, false, true⟩ [] 300).1 = [.mkdir "shotdir"] :=
  (simulate_creates_directory_only _ [] 300 rfl rfl).1

/-- Claim C8: every output filename is the input stem, an underscore, the
1-based index zero-padded to exactly `len(str(total_count))` characters (the
padding width fixed for the whole run by `total_count` alone), then `.png`;
concretely `total_count = 12` gives 2-digit indices (`_01.png`, `_12.png`)
and `total_count = 100` gives 3-digit padding (`_007.png`). -/
theorem output_filename_format (stem : String) (count : Nat) (max_count : Int)
    (h1 : 1 ≤ count) (h2 : (count : Int) ≤ max_count) :
    (mkOutFile stem count max_count =
      stem ++ "_" ++ String.mk (List.replicate ((intRepr max_count).length
        - (decDigits count).length) '0' ++ decDigits count) ++ ".png"
    ∧ (List.replicate ((intRepr max_count).length - (decDigits count).length) '0'
        ++ decDigits count).length = (intRepr max_count).length)
    ∧ mkOutFile "v" 1 12 = "v_01.png"
    ∧ mkOutFile "v" 12 12 = "v_12.png"
    ∧ mkOutFile "v" 7 100 = "v_007.png" := by
  have hd1 : decDigits 1 = ['1'] := by
    rw [decDigits_lt 1 (by norm_num)]
  have hd7 : decDigits 7 = ['7'] := by
    rw [decDigits_lt 7 (by norm_num)]
  have hd12 : decDigits 12 = ['1', '2'] := by
    rw [decDigits_ge 12 (by norm_num)]
    norm_num
    rw [decDigits_lt 1 (by norm_num)]
    decide
  have hd100 : decDigits 100 = ['1', '0', '0'] := by
    rw [decDigits_ge 100 (by norm_num)]
    norm_num
    rw [decDigits_ge 10 (by norm_num)]
    norm_num
    rw [decDigits_lt 1 (by norm_num)]
    decide
  refine ⟨?_, ?_, ?_, ?_⟩
  · have hmc0 : ¬ max_count < 0 := by omega
    have hW : intRepr max_count = decDigits max_count.toNat := by
      unfold intRepr
      rw [if_neg hmc0]
    have hLW : (decDigits count).length ≤ (intRepr max_count).length := by
      rw [hW]
      exact decDigits_length_mono count max_count.toNat (by omega)
    constructor
    · unfold mkOutFile
      have hz : pyZfill (decDigits count) (intRepr max_count).length
          = List.replicate ((intRepr max_count).length - (decDigits count).length) '0'
            ++ decDigits count := by
        unfold pyZfill
        by_cases hw : (intRepr max_count).length ≤ (decDigits count).length
        · rw [if_pos hw]
          have hz0 : (intRepr max_count).length - (decDigits count).length = 0 := by omega
          rw [hz0, List.replicate_zero, List.nil_append]
        · rw [if_neg hw]
          obtain ⟨c, rest, hcr⟩ := List.exists_cons_of_ne_nil (decDigits_ne_nil count)
          rw [hcr]
          dsimp only
          rw [decDigits_head_no_sign count c rest hcr]
          rw [if_neg (by simp)]
      rw [hz]
    · rw [List.length_append, List.length_replicate]
      omega
  · unfold mkOutFile intRepr
    rw [if_neg (by norm_num)]
    rw [show Int.toNat 12 = 12 from rfl]
    rw [hd1, hd12]
    decide
  · unfold mkOutFile intRepr
    rw [if_neg (by norm_num)]
    rw [show Int.toNat 12 = 12 from rfl]
    rw [hd12]
    decide
  · unfold mkOutFile intRepr
    rw [if_neg (by norm_num)]
    rw [show Int.toNat 100 = 100 from rfl]
    rw [hd7, hd100]
    decide

/-- Witness for C8: index 1 of a 12-screenshot run is `v_01.png`. -/
theorem output_filename_format_witness : mkOutFile "v" 1 12 = "v_01.png" :=
  (output_filename_format "v" 1 12 (by norm_num) (by norm_num)).2.1
